import Mathlib

/-!
Verification of the token-bucket rate limiting library (tbucket).

We shallowly embed the three bucket variants of the source file
(TokenBucket, ScheduledTokenBucket, TimeSeriesTokenBucket) in Lean.

Modelling conventions:
* Python floats (timestamps, token counts) are modelled as rationals.
* The single `tbf` row for a key is modelled as `Option (ℚ × ℚ)`
  (tokens, last); `none` models the absence of a row.
* The `ts_token_bucket` rows for a key are modelled as a `List ℚ` of the
  `time` column values, in insertion order; SQL DELETE-by-rowid with a
  `limit 1` subquery removes one matching occurrence, which `List.diff`
  models at the multiset level.
* Python exceptions (assert failures, which roll back the transaction)
  are modelled by `Option`: `none` is a raised contract violation.
* `time.time()` is passed in explicitly as a `now`/`query_time` argument.
-/

namespace TBucket

/-- Configuration of a classic or scheduled bucket: `rate` and `period`
(both stored as floats by `TokenBucket.__init__`). -/
structure TB where
  rate : ℚ
  period : ℚ

/-- `TokenBucket._set`: clamp tokens into `[0, rate]` (first the lower
bound, then the upper bound, as in the source) and upsert the row;
returns the new persisted row together with the returned tuple. -/
def tbSet (b : TB) (tokens timestamp : ℚ) : Option (ℚ × ℚ) × (ℚ × ℚ) :=
  let t1 : ℚ := if tokens < 0 then 0 else tokens
  let t2 : ℚ := if t1 > b.rate then b.rate else t1
  (some (t2, timestamp), (t2, timestamp))

/-- `TokenBucket._update`: linear refill `tokens + tdelta * rate / period`;
returns the old timestamp unchanged. -/
def classicUpdate (b : TB) (tokens timestamp query_time : ℚ) : ℚ × ℚ :=
  (tokens + (query_time - timestamp) * b.rate / b.period, timestamp)

/-- `TokenBucket._peek` (shared by Classic and Scheduled, with the update
rule passed in for the subclass override): read the row, defaulting to
`(rate, now)` when absent, apply the update rule, then `_set(tokens, now)`.
The timestamp produced by `_update` is discarded in favour of `now`,
exactly as in the source. -/
def tbPeek (b : TB) (upd : ℚ → ℚ → ℚ → ℚ × ℚ) (st : Option (ℚ × ℚ))
    (now : ℚ) : Option (ℚ × ℚ) × (ℚ × ℚ) :=
  let row : ℚ × ℚ :=
    match st with
    | none => (b.rate, now)
    | some p => p
  let u := upd row.1 row.2 now
  tbSet b u.1 now

/-- `TokenBucket.try_consume` (with `leave` already defaulted to `0` by the
caller when omitted): peek, and when `tokens ≥ n ∧ tokens > leave` persist
`tokens - n` at the peeked timestamp and report success; there is no check
on the sign of `n` in the source. -/
def tbTryConsume (b : TB) (upd : ℚ → ℚ → ℚ → ℚ × ℚ) (st : Option (ℚ × ℚ))
    (now n leave : ℚ) : Option (ℚ × ℚ) × (Bool × ℚ × ℚ) :=
  let p := tbPeek b upd st now
  let tokens := p.2.1
  let timestamp := p.2.2
  if tokens ≥ n ∧ tokens > leave then
    let s := tbSet b (tokens - n) timestamp
    (s.1, (true, s.2.1, s.2.2))
  else
    (p.1, (false, tokens, timestamp))

/-- Python float modulo for a positive divisor: `a - b * floor (a / b)`. -/
def qmod (a b : ℚ) : ℚ := a - b * (⌊a / b⌋ : ℚ)

/-- `ScheduledTokenBucket._get_last_refill`. -/
def lastRefill (b : TB) (when : ℚ) : ℚ := when - qmod when b.period

/-- `ScheduledTokenBucket._update`: jump to `(rate, last_refill)` when a
period boundary was crossed since the stored timestamp, else keep the
token count and move the timestamp to the query time. -/
def schedUpdate (b : TB) (tokens timestamp query_time : ℚ) : ℚ × ℚ :=
  if lastRefill b query_time > timestamp then (b.rate, lastRefill b query_time)
  else (tokens, query_time)

end TBucket

namespace TBucket

/-- The token component of `_set` lies in `[0, rate]` whenever
`0 ≤ rate`, and the row is persisted as returned. -/
theorem tbSet_spec (b : TB) (tok ts : ℚ) (hr : 0 ≤ b.rate) :
    0 ≤ (tbSet b tok ts).2.1 ∧ (tbSet b tok ts).2.1 ≤ b.rate ∧
      (tbSet b tok ts).1 = some ((tbSet b tok ts).2.1, ts) ∧
      (tbSet b tok ts).2.2 = ts := by
  unfold tbSet
  dsimp only
  split_ifs with h1 h2 h3 <;> simp_all

/-- The peeked token count lies in `[0, rate]`, the peeked timestamp is
`now`, and the peeked state is persisted. -/
theorem tbPeek_spec (b : TB) (upd : ℚ → ℚ → ℚ → ℚ × ℚ)
    (st : Option (ℚ × ℚ)) (now : ℚ) (hr : 0 ≤ b.rate) :
    0 ≤ (tbPeek b upd st now).2.1 ∧ (tbPeek b upd st now).2.1 ≤ b.rate ∧
      (tbPeek b upd st now).1 = some ((tbPeek b upd st now).2.1, now) ∧
      (tbPeek b upd st now).2.2 = now := by
  unfold tbPeek
  exact tbSet_spec b _ now hr

end TBucket

namespace TBucket

/-- Clamping in `_set` is the identity when the tokens are already in
`[0, rate]`. -/
theorem tbSet_val_of_mem (b : TB) (tok ts : ℚ) (h0 : 0 ≤ tok)
    (h1 : tok ≤ b.rate) : tbSet b tok ts = (some (tok, ts), (tok, ts)) := by
  unfold tbSet
  have hA : ¬tok < 0 := by linarith
  have hB : ¬tok > b.rate := by linarith
  simp [hA, hB]

/-- C1: for the Classic bucket, `try_consume n leave` (with `leave`
defaulted to 0 by the caller) succeeds iff the peeked token count `tk`
satisfies `tk ≥ n ∧ tk > leave`; on success it persists and returns
`(true, tk - n, ts)`, and on failure it returns `(false, tk, ts)` with
the available token count unchanged from the peeked state. -/
theorem classic_try_consume_iff (b : TB) (st : Option (ℚ × ℚ))
    (now n leave : ℚ) (hr : 0 < b.rate) (hn : 0 < n) :
    (((tbPeek b (classicUpdate b) st now).2.1 ≥ n ∧
        (tbPeek b (classicUpdate b) st now).2.1 > leave) →
      tbTryConsume b (classicUpdate b) st now n leave =
        (some ((tbPeek b (classicUpdate b) st now).2.1 - n,
               (tbPeek b (classicUpdate b) st now).2.2),
         (true, (tbPeek b (classicUpdate b) st now).2.1 - n,
                (tbPeek b (classicUpdate b) st now).2.2))) ∧
    (¬((tbPeek b (classicUpdate b) st now).2.1 ≥ n ∧
        (tbPeek b (classicUpdate b) st now).2.1 > leave) →
      tbTryConsume b (classicUpdate b) st now n leave =
        (some ((tbPeek b (classicUpdate b) st now).2.1,
               (tbPeek b (classicUpdate b) st now).2.2),
         (false, (tbPeek b (classicUpdate b) st now).2.1,
                 (tbPeek b (classicUpdate b) st now).2.2))) := by
  obtain ⟨h0, h1, h2, h3⟩ := tbPeek_spec b (classicUpdate b) st now (le_of_lt hr)
  constructor
  · intro hcond
    unfold tbTryConsume
    rw [if_pos hcond]
    rw [tbSet_val_of_mem b _ _ (by linarith [hcond.1]) (by linarith)]
  · intro hcond
    unfold tbTryConsume
    rw [if_neg hcond]
    rw [Prod.ext_iff]
    refine ⟨?_, rfl⟩
    rw [h2, h3]

/-- Witness for `classic_try_consume_iff` at a fresh bucket with
`rate = 10`, `period = 10`, `now = 0`, `n = 3`, `leave = 0`. -/
theorem classic_try_consume_iff_witness :
    tbTryConsume ⟨10, 10⟩ (classicUpdate ⟨10, 10⟩) none 0 3 0 =
      (some ((tbPeek ⟨10, 10⟩ (classicUpdate ⟨10, 10⟩) none 0).2.1 - 3,
             (tbPeek ⟨10, 10⟩ (classicUpdate ⟨10, 10⟩) none 0).2.2),
       (true, (tbPeek ⟨10, 10⟩ (classicUpdate ⟨10, 10⟩) none 0).2.1 - 3,
              (tbPeek ⟨10, 10⟩ (classicUpdate ⟨10, 10⟩) none 0).2.2)) :=
  (classic_try_consume_iff ⟨10, 10⟩ none 0 3 0 (by norm_num)
    (by norm_num)).1
    (by norm_num [tbPeek, tbSet, classicUpdate])

/-- C3 counterexample: in the `rate = 10, period = 10` scenario, the third
call `try_consume 8` at time 5 succeeds with exactly 2 tokens remaining,
not approximately 4.5: the distance to 4.5 is 5/2. -/
theorem classic_scenario_counterexample :
    tbTryConsume ⟨10, 10⟩ (classicUpdate ⟨10, 10⟩) (some (7, 0)) 5 8 0 =
      (some (2, 5), (true, 2, 5)) ∧ (9 / 2 - 2 : ℚ) = 5 / 2 ∧
      ¬(9 / 2 - 2 : ℚ) ≤ 1 := by
  refine ⟨?_, by norm_num, by norm_num⟩
  norm_num [tbTryConsume, tbPeek, tbSet, classicUpdate]

/-- C3 amended: `rate = 10, period = 10`, fresh bucket: `try_consume 3` at
time 0 returns `(true, 7, 0)`; then `try_consume 8` at time 0 returns
`(false, 7, 0)`; then `try_consume 8` at time 5 succeeds with exactly 2
tokens remaining at timestamp 5 (the refill `7 + 5 = 12` is clamped to the
ceiling 10 before 8 tokens are removed). -/
theorem classic_scenario_amended :
    tbTryConsume ⟨10, 10⟩ (classicUpdate ⟨10, 10⟩) none 0 3 0 =
      (some (7, 0), (true, 7, 0)) ∧
    tbTryConsume ⟨10, 10⟩ (classicUpdate ⟨10, 10⟩) (some (7, 0)) 0 8 0 =
      (some (7, 0), (false, 7, 0)) ∧
    tbTryConsume ⟨10, 10⟩ (classicUpdate ⟨10, 10⟩) (some (7, 0)) 5 8 0 =
      (some (2, 5), (true, 2, 5)) := by
  refine ⟨?_, ?_, ?_⟩ <;>
    norm_num [tbTryConsume, tbPeek, tbSet, classicUpdate]

/-- `59 mod 60 = 59` for the scheduled boundary computation. -/
theorem lastRefill_59 : lastRefill ⟨5, 60⟩ 59 = 0 := by
  unfold lastRefill qmod
  have h : ⌊(59 : ℚ) / 60⌋ = 0 := by
    rw [Int.floor_eq_iff]
    constructor <;> norm_num
  rw [h]
  norm_num

/-- `60.5 mod 60 = 0.5`, so the last refill boundary at time `60.5` is
`60`. -/
theorem lastRefill_60_5 : lastRefill ⟨5, 60⟩ (121 / 2) = 60 := by
  unfold lastRefill qmod
  have h : ⌊(121 : ℚ) / 2 / 60⌋ = 1 := by
    rw [Int.floor_eq_iff]
    constructor <;> norm_num
  rw [h]
  norm_num

/-- C4 counterexample: Scheduled bucket `rate = 5, period = 60`; after
consuming 5 tokens at time 59, `peek` at time 60.5 returns tokens `5` but
timestamp `60.5` (the query time), not the refill boundary `60`: `_peek`
persists and returns `(tokens, now)`, discarding the boundary timestamp
computed by the scheduled `_update`. -/
theorem sched_peek_counterexample :
    tbTryConsume ⟨5, 60⟩ (schedUpdate ⟨5, 60⟩) none 59 5 0 =
      (some (0, 59), (true, 0, 59)) ∧
    tbPeek ⟨5, 60⟩ (schedUpdate ⟨5, 60⟩) (some (0, 59)) (121 / 2) =
      (some (5, 121 / 2), (5, 121 / 2)) ∧ (121 / 2 : ℚ) ≠ 60 := by
  refine ⟨?_, ?_, by norm_num⟩
  · norm_num [tbTryConsume, tbPeek, tbSet, schedUpdate, lastRefill_59]
  · norm_num [tbPeek, tbSet, schedUpdate, lastRefill_60_5]

/-- C4 amended: in the same scenario, `peek` at time 60.5 returns tokens
`5` with timestamp `60.5` (the query time); the crossed refill boundary
computed internally by the scheduled update rule is indeed `60`, but it
is not the returned timestamp. -/
theorem sched_peek_amended :
    tbTryConsume ⟨5, 60⟩ (schedUpdate ⟨5, 60⟩) none 59 5 0 =
      (some (0, 59), (true, 0, 59)) ∧
    tbPeek ⟨5, 60⟩ (schedUpdate ⟨5, 60⟩) (some (0, 59)) (121 / 2) =
      (some (5, 121 / 2), (5, 121 / 2)) ∧
    lastRefill ⟨5, 60⟩ (121 / 2) = 60 := by
  refine ⟨?_, ?_, lastRefill_60_5⟩
  · norm_num [tbTryConsume, tbPeek, tbSet, schedUpdate, lastRefill_59]
  · norm_num [tbPeek, tbSet, schedUpdate, lastRefill_60_5]

end TBucket

namespace TBucket

/-- Configuration of a time-series bucket: `rate` is truncated to an
integer by `TimeSeriesTokenBucket.__init__` (`int(self.rate)`); the
claims concern non-negative rates, modelled as `ℕ`. -/
structure TSB where
  rate : ℕ
  period : ℚ

/-- The window predicate of `TimeSeriesTokenBucket.peek`:
`time >= query_time - period and time <= query_time`. -/
def inWindow (b : TSB) (qt t : ℚ) : Prop := qt - b.period ≤ t ∧ t ≤ qt

instance inWindow_dec (b : TSB) (qt t : ℚ) : Decidable (inWindow b qt t) :=
  inferInstanceAs (Decidable (_ ∧ _))

/-- The rows of `ts_token_bucket` for this key whose `time` lies in the
window, as selected by `peek`. The database rows for the key are
modelled as a `List ℚ` of `time` values in insertion order. -/
def tsWindow (b : TSB) (db : List ℚ) (qt : ℚ) : List ℚ :=
  db.filter fun t => decide (inWindow b qt t)

/-- `TimeSeriesTokenBucket.peek` with an explicit `query_time`: returns
`(rate - len(times), times, query_time)`. -/
def tsPeek (b : TSB) (db : List ℚ) (qt : ℚ) : ℤ × List ℚ × ℚ :=
  ((b.rate : ℤ) - (tsWindow b db qt).length, (tsWindow b db qt, qt))

/-- `peek` as a state-passing operation: the source method only runs a
SELECT, so the database is returned unchanged. -/
def tsPeekOp (b : TSB) (db : List ℚ) (qt : ℚ) :
    List ℚ × (ℤ × List ℚ × ℚ) :=
  (db, tsPeek b db qt)

/-- `select max(time) from ts_token_bucket where key = ?`. -/
def listMax : List ℚ → Option ℚ
  | [] => none
  | t :: ts =>
    match listMax ts with
    | none => some t
    | some m => some (max t m)

/-- `TimeSeriesTokenBucket._trim_default`: find the latest recorded time
for the key and delete every row with `time < latest - period`. -/
def tsTrim (b : TSB) (db : List ℚ) : List ℚ :=
  match listMax db with
  | none => db
  | some latest => db.filter fun t => decide (¬t < latest - b.period)

/-- `TimeSeriesTokenBucket._record` (with the default trim function):
no-op on an empty argument list, otherwise insert the rows and trim. -/
def tsRecord (b : TSB) (db : List ℚ) (times : List ℚ) : List ℚ :=
  if times.isEmpty then db else tsTrim b (db ++ times)

/-- `TimeSeriesTokenBucket.try_consume` (with `leave` defaulted to 0 by
the caller): asserts `0 < n ≤ rate` (modelled as `none`), peeks, and when
`tokens ≥ n ∧ tokens > leave` records `n` rows at the query time. The
returned token count is recomputed as `rate - len(times)` after the new
times are appended, as in the source. -/
def tsTryConsume (b : TSB) (db : List ℚ) (qt : ℚ) (n leave : ℤ) :
    Option (List ℚ × (Bool × ℤ × List ℚ × ℚ)) :=
  if n ≤ 0 then none
  else if n > (b.rate : ℤ) then none
  else
    let times := tsWindow b db qt
    let tokens := (b.rate : ℤ) - times.length
    if tokens ≥ n ∧ tokens > leave then
      let newTimes := List.replicate n.toNat qt
      some (tsRecord b db newTimes,
        (true, (b.rate : ℤ) - (times ++ newTimes).length,
          (times ++ newTimes, qt)))
    else
      some (db, (false, (b.rate : ℤ) - times.length, (times, qt)))

/-- `TimeSeriesTokenBucket._mutate` with an explicit `query_time`. The
mutator may itself raise (an `Option` result); its returned times must
all lie in `[query_time - period, query_time]`, else the contract
assertion fires (`none`). On success the multiset difference is applied:
the added rows are recorded (which trims), then the removed rows are
deleted one occurrence at a time (`List.diff`). -/
def tsMutate (b : TSB) (db : List ℚ)
    (mutator : List ℚ → ℚ → Option (List ℚ)) (qt : ℚ) :
    Option (List ℚ × (ℤ × List ℚ × ℚ)) :=
  let oldTimes := tsWindow b db qt
  match mutator oldTimes qt with
  | none => none
  | some newTimes =>
    if ∀ t ∈ newTimes, t ≤ qt ∧ t ≥ qt - b.period then
      let timesToAdd := newTimes.diff oldTimes
      let timesToDelete := oldTimes.diff newTimes
      some ((tsRecord b db timesToAdd).diff timesToDelete,
        ((b.rate : ℤ) - newTimes.length, (newTimes, qt)))
    else none

/-- `TimeSeriesTokenBucket.mutate`: the public wrapper runs inside a
BEGIN IMMEDIATE transaction, so a raised contract violation rolls the
database back to its prior state. -/
def tsMutateTx (b : TSB) (db : List ℚ)
    (mutator : List ℚ → ℚ → Option (List ℚ)) (qt : ℚ) :
    List ℚ × Option (ℤ × List ℚ × ℚ) :=
  match tsMutate b db mutator qt with
  | none => (db, none)
  | some (db2, r) => (db2, some r)

/-- The default `fill` callback of `TimeSeriesTokenBucket.set`:
`[query_time] * n`. -/
def defaultFill (times : List ℚ) (qt : ℚ) (k : ℕ) : List ℚ :=
  List.replicate k qt

/-- `TimeSeriesTokenBucket.set`: asserts `0 ≤ n ≤ rate` (the lower bound
holds by the `ℕ` type), then mutates: when too few rows are recorded,
`fill` supplies the missing timestamps (its output length and window
containment are asserted); when too many, `prune` selects rows to delete
(its output length and sub-multiset containment are asserted, and the
remaining rows are the multiset difference). The default `prune` of the
source is `random.sample`, whose outputs always satisfy the asserted
conditions; it is modelled by quantifying over the `prune` callback. -/
def setMutator (b : TSB) (n : ℕ)
    (fill prune : List ℚ → ℚ → ℕ → List ℚ)
    (times : List ℚ) (qt : ℚ) : Option (List ℚ) :=
  let tokens := (b.rate : ℤ) - times.length
  if tokens > (n : ℤ) then
    let numToAdd := (tokens - (n : ℤ)).toNat
    let newts := fill times qt numToAdd
    if newts.length = numToAdd ∧
        ∀ t ∈ newts, t ≥ qt - b.period ∧ t ≤ qt then
      some (times ++ newts)
    else none
  else if tokens < (n : ℤ) then
    let numToPrune := ((n : ℤ) - tokens).toNat
    let toPrune := prune times qt numToPrune
    if toPrune.length = numToPrune ∧
        ∀ x ∈ toPrune, toPrune.count x ≤ times.count x then
      some (times.diff toPrune)
    else none
  else some times

/-- `TimeSeriesTokenBucket.set`: asserts `n ≤ rate` (the lower bound
`0 ≤ n` holds by the `ℕ` type), then delegates to `mutate` with the
closure above. -/
def tsSet (b : TSB) (db : List ℚ) (n : ℕ) (qt : ℚ)
    (fill prune : List ℚ → ℚ → ℕ → List ℚ) :
    Option (List ℚ × (ℤ × List ℚ × ℚ)) :=
  if (n : ℤ) > (b.rate : ℤ) then none
  else tsMutate b db (setMutator b n fill prune) qt

/-- Descending sort: `sorted(times, key=lambda t: -t)`. -/
def sortDesc (times : List ℚ) : List ℚ :=
  List.insertionSort (fun a c => a ≥ c) times

/-- `TimeSeriesTokenBucket._estimate`: asserts `0 < n ≤ rate`; if
`rate - n ≥ len(times)` the answer is the query time, else the
`(rate - n)`-th element of the times sorted descending, plus `period`. -/
def tsEstimate (b : TSB) (times : List ℚ) (qt : ℚ) (n : ℤ) : Option ℚ :=
  if n ≤ 0 then none
  else if n > (b.rate : ℤ) then none
  else
    let offset := (b.rate : ℤ) - n
    if offset ≥ times.length then some qt
    else some ((sortDesc times).getD offset.toNat 0 + b.period)

/-- `TimeSeriesTokenBucket.estimate`: peek, then `_estimate` on the
window contents. -/
def tsEstimatePub (b : TSB) (db : List ℚ) (n : ℤ) (qt : ℚ) : Option ℚ :=
  tsEstimate b (tsWindow b db qt) qt n

end TBucket

namespace TBucket

/-- The maximum returned by `listMax` is one of the list elements. -/
theorem listMax_mem : ∀ {l : List ℚ} {m : ℚ}, listMax l = some m → m ∈ l := by
  intro l
  induction l with
  | nil => intro m h; simp [listMax] at h
  | cons t ts ih =>
    intro m h
    unfold listMax at h
    cases hts : listMax ts with
    | none =>
      rw [hts] at h
      simp only [Option.some.injEq] at h
      simp [← h]
    | some k =>
      rw [hts] at h
      simp only [Option.some.injEq] at h
      rcases max_choice t k with hc | hc
      · rw [← h, hc]; exact List.mem_cons_self t ts
      · rw [← h, hc]; exact List.mem_cons_of_mem t (ih hts)

/-- Membership in the selected window. -/
theorem mem_tsWindow (b : TSB) (db : List ℚ) (qt t : ℚ) :
    t ∈ tsWindow b db qt ↔ t ∈ db ∧ inWindow b qt t := by
  unfold tsWindow
  simp [List.mem_filter]

/-- When every recorded time is at most the query time, the default trim
never deletes a row inside the query window: the deletion threshold
`latest - period` is at most `query_time - period`. -/
theorem tsWindow_tsTrim (b : TSB) (l : List ℚ) (qt : ℚ)
    (hq : ∀ t ∈ l, t ≤ qt) :
    tsWindow b (tsTrim b l) qt = tsWindow b l qt := by
  unfold tsTrim
  cases h : listMax l with
  | none => rfl
  | some m =>
    have hm : m ≤ qt := hq m (listMax_mem h)
    unfold tsWindow
    rw [List.filter_filter]
    apply List.filter_congr
    intro x hx
    by_cases hw : inWindow b qt x
    · have hkeep : ¬x < m - b.period := by
        have := hw.1
        unfold inWindow at hw
        linarith [hw.1]
      simp [hw, hkeep]
    · simp [hw]

/-- The window of an append is the append of the windows. -/
theorem tsWindow_append (b : TSB) (l₁ l₂ : List ℚ) (qt : ℚ) :
    tsWindow b (l₁ ++ l₂) qt = tsWindow b l₁ qt ++ tsWindow b l₂ qt :=
  List.filter_append l₁ l₂

/-- Window contents of a `_record` call whose inputs are all at most the
query time. -/
theorem tsWindow_tsRecord (b : TSB) (l ts : List ℚ) (qt : ℚ)
    (hl : ∀ t ∈ l, t ≤ qt) (hts : ∀ t ∈ ts, t ≤ qt) :
    tsWindow b (tsRecord b l ts) qt = tsWindow b l qt ++ tsWindow b ts qt := by
  unfold tsRecord
  cases ts with
  | nil => simp [tsWindow]
  | cons a as =>
    rw [if_neg (by simp)]
    rw [tsWindow_tsTrim b (l ++ a :: as) qt ?_, tsWindow_append]
    intro t ht
    rcases List.mem_append.mp ht with h | h
    · exact hl t h
    · exact hts t h

/-- A list whose elements all lie in the window filters to itself. -/
theorem tsWindow_of_all (b : TSB) (l : List ℚ) (qt : ℚ)
    (h : ∀ t ∈ l, inWindow b qt t) : tsWindow b l qt = l := by
  unfold tsWindow
  rw [List.filter_eq_self]
  intro a ha
  simp [h a ha]

/-- Every element of the window satisfies the window predicate. -/
theorem tsWindow_in_window (b : TSB) (db : List ℚ) (qt : ℚ) :
    ∀ t ∈ tsWindow b db qt, inWindow b qt t := by
  intro t ht
  exact ((mem_tsWindow b db qt t).mp ht).2

/-- Window elements are bounded by the query time. -/
theorem tsWindow_le_qt (b : TSB) (db : List ℚ) (qt : ℚ) :
    ∀ t ∈ tsWindow b db qt, t ≤ qt := by
  intro t ht
  exact (tsWindow_in_window b db qt t ht).2

/-- The multiset patch identity behind `_mutate`: adding `new - old` and
then removing `old - new` from `old` yields exactly `new`. -/
theorem multiset_patch (o nw : Multiset ℚ) : o + (nw - o) - (o - nw) = nw := by
  rw [Multiset.ext]
  intro a
  rw [Multiset.count_sub, Multiset.count_add, Multiset.count_sub,
    Multiset.count_sub]
  omega

/-- Deleting rows that all lie inside the window subtracts them from the
window, at the multiset level. -/
theorem tsWindow_diff_coe (b : TSB) (l d : List ℚ) (qt : ℚ)
    (hd : ∀ t ∈ d, inWindow b qt t) :
    (tsWindow b (l.diff d) qt : Multiset ℚ) =
      (tsWindow b l qt : Multiset ℚ) - (d : Multiset ℚ) := by
  unfold tsWindow
  calc (↑(List.filter (fun t => decide (inWindow b qt t)) (l.diff d)) :
        Multiset ℚ)
      = Multiset.filter (inWindow b qt) ↑(l.diff d) :=
        (Multiset.filter_coe _ _).symm
    _ = Multiset.filter (inWindow b qt) ((l : Multiset ℚ) - (d : Multiset ℚ)) := by
        rw [Multiset.coe_sub]
    _ = Multiset.filter (inWindow b qt) (l : Multiset ℚ) -
          Multiset.filter (inWindow b qt) (d : Multiset ℚ) :=
        Multiset.filter_sub _ _ _
    _ = Multiset.filter (inWindow b qt) (l : Multiset ℚ) - (d : Multiset ℚ) := by
        have hdm : Multiset.filter (inWindow b qt) (d : Multiset ℚ) =
            (d : Multiset ℚ) :=
          Multiset.filter_eq_self.mpr (by
            intro a ha
            exact hd a (Multiset.mem_coe.mp ha))
        rw [hdm]
    _ = ↑(List.filter (fun t => decide (inWindow b qt t)) l) - (d : Multiset ℚ) := by
        rw [Multiset.filter_coe]

end TBucket

namespace TBucket

/-- Core correctness of `_mutate` on a successful run: when every
recorded time is at most the query time and the mutator returns times
inside the window, the resulting database's window is, as a multiset,
exactly the mutator's output. -/
theorem tsMutate_window (b : TSB) (db : List ℚ) (qt : ℚ)
    (mutator : List ℚ → ℚ → Option (List ℚ)) (newTimes : List ℚ)
    (hdb : ∀ t ∈ db, t ≤ qt)
    (hm : mutator (tsWindow b db qt) qt = some newTimes)
    (hwin : ∀ t ∈ newTimes, t ≤ qt ∧ t ≥ qt - b.period) :
    tsMutate b db mutator qt =
      some ((tsRecord b db (newTimes.diff (tsWindow b db qt))).diff
              ((tsWindow b db qt).diff newTimes),
        ((b.rate : ℤ) - newTimes.length, (newTimes, qt))) ∧
    (tsWindow b ((tsRecord b db (newTimes.diff (tsWindow b db qt))).diff
        ((tsWindow b db qt).diff newTimes)) qt : Multiset ℚ) =
      (newTimes : Multiset ℚ) := by
  have hnew_window : ∀ t ∈ newTimes, inWindow b qt t := by
    intro t ht
    exact ⟨(hwin t ht).2, (hwin t ht).1⟩
  constructor
  · unfold tsMutate
    dsimp only
    rw [hm]
    dsimp only
    rw [if_pos hwin]
  · set old := tsWindow b db qt with hold
    set toAdd := newTimes.diff old with htoAdd
    set toDel := old.diff newTimes with htoDel
    have hAddWin : ∀ t ∈ toAdd, inWindow b qt t := by
      intro t ht
      exact hnew_window t (List.diff_subset newTimes old ht)
    have hDelWin : ∀ t ∈ toDel, inWindow b qt t := by
      intro t ht
      exact tsWindow_in_window b db qt t (List.diff_subset old newTimes ht)
    have h1 : tsWindow b (tsRecord b db toAdd) qt = old ++ toAdd := by
      rw [tsWindow_tsRecord b db toAdd qt hdb
        (fun t ht => (hAddWin t ht).2)]
      rw [tsWindow_of_all b toAdd qt hAddWin]
    rw [tsWindow_diff_coe b (tsRecord b db toAdd) toDel qt hDelWin, h1]
    have h2 : ((old ++ toAdd : List ℚ) : Multiset ℚ) =
        (old : Multiset ℚ) + (toAdd : Multiset ℚ) := by
      rw [← Multiset.coe_add]
    rw [h2, htoAdd, htoDel, ← Multiset.coe_sub, ← Multiset.coe_sub]
    exact multiset_patch (old : Multiset ℚ) (newTimes : Multiset ℚ)

/-- C10: the Time-Series `peek` is read-only — it returns the database
unchanged and reports `rate` minus the number of rows whose time lies in
`[query_time - period, query_time]` — unlike the Classic `peek`, which
writes back the refilled state (shown here overwriting the row `(0, 0)`
with `(1, 1)` at query time 1 for `rate = 10, period = 10`). -/
theorem ts_peek_readonly (b : TSB) (db : List ℚ) (qt : ℚ) :
    (tsPeekOp b db qt).1 = db ∧
    (tsPeekOp b db qt).2.1 =
      (b.rate : ℤ) -
        (db.filter fun t => decide (qt - b.period ≤ t ∧ t ≤ qt)).length ∧
    (tsPeekOp b db qt).2.2.1 =
      db.filter (fun t => decide (qt - b.period ≤ t ∧ t ≤ qt)) ∧
    (tsPeekOp b db qt).2.2.2 = qt ∧
    (tbPeek ⟨10, 10⟩ (classicUpdate ⟨10, 10⟩) (some (0, 0)) 1).1 =
      some (1, 1) ∧
    some ((1 : ℚ), (1 : ℚ)) ≠ some ((0 : ℚ), (0 : ℚ)) := by
  refine ⟨rfl, rfl, rfl, rfl, ?_, by norm_num⟩
  norm_num [tbPeek, tbSet, classicUpdate]

/-- C8 amended: the Time-Series `try_consume` raises a contract violation
for every `n ≤ 0` (so the Time-Series `consume`, which calls it, does
too); the Classic and Scheduled `try_consume` perform no such check (see
the counterexample, where a negative `n` succeeds and adds tokens). -/
theorem ts_try_consume_nonpos (b : TSB) (db : List ℚ) (qt : ℚ)
    (n leave : ℤ) (hn : n ≤ 0) : tsTryConsume b db qt n leave = none := by
  unfold tsTryConsume
  rw [if_pos hn]

/-- Witness for `ts_try_consume_nonpos` at `n = 0`. -/
theorem ts_try_consume_nonpos_witness :
    (0 : ℤ) ≤ 0 ∧ tsTryConsume ⟨3, 10⟩ [] 0 0 0 = none :=
  ⟨le_refl 0, ts_try_consume_nonpos ⟨3, 10⟩ [] 0 0 0 (le_refl 0)⟩

/-- C8 counterexample: the Classic `try_consume` does not reject
`n ≤ 0`: with `rate = 10, period = 10`, state `(7, 0)` and `n = -1` it
returns success and silently adds a token (7 becomes 8). -/
theorem classic_try_consume_no_guard :
    tbTryConsume ⟨10, 10⟩ (classicUpdate ⟨10, 10⟩) (some (7, 0)) 0 (-1) 0 =
      (some (8, 0), (true, 8, 0)) ∧ (7 : ℚ) < 8 := by
  refine ⟨?_, by norm_num⟩
  norm_num [tbTryConsume, tbPeek, tbSet, classicUpdate]

/-- Lift a total (never-raising) Python mutator function into the
`Option`-valued form used by the embedding of `_mutate`. -/
def liftMutator (m : List ℚ → ℚ → List ℚ) :
    List ℚ → ℚ → Option (List ℚ) :=
  fun ts qt => some (m ts qt)

/-- C7: when the mutator returns any timestamp outside
`[query_time - period, query_time]`, `mutate` raises the contract
assertion and the transaction rolls back: the database is unchanged, and
a subsequent `peek` returns the same timestamps as before. -/
theorem ts_mutate_guard (b : TSB) (db : List ℚ) (m : List ℚ → ℚ → List ℚ)
    (qt : ℚ)
    (hbad : ¬∀ t ∈ m (tsWindow b db qt) qt, t ≤ qt ∧ t ≥ qt - b.period) :
    tsMutateTx b db (liftMutator m) qt = (db, none) ∧
    tsPeekOp b (tsMutateTx b db (liftMutator m) qt).1 qt =
      tsPeekOp b db qt := by
  have h1 : tsMutate b db (liftMutator m) qt = none := by
    unfold tsMutate liftMutator
    dsimp only
    rw [if_neg hbad]
  have h2 : tsMutateTx b db (liftMutator m) qt = (db, none) := by
    unfold tsMutateTx
    rw [h1]
  refine ⟨h2, ?_⟩
  rw [h2]

/-- Witness for `ts_mutate_guard`: `rate = 3, period = 10`, database
`[0]`, query time 5, and a mutator returning `[6]` (outside the window
`[-5, 5]`). -/
theorem ts_mutate_guard_witness :
    tsMutateTx ⟨3, 10⟩ [0] (liftMutator fun _ _ => [6]) 5 = ([0], none) ∧
    tsPeekOp ⟨3, 10⟩ (tsMutateTx ⟨3, 10⟩ [0] (liftMutator fun _ _ => [6]) 5).1 5 =
      tsPeekOp ⟨3, 10⟩ [0] 5 :=
  ts_mutate_guard ⟨3, 10⟩ [0] (fun _ _ => [6]) 5 (by norm_num)

end TBucket

namespace TBucket

/-- C5: for `0 < n ≤ rate`, `_estimate` returns the query time when
`rate - n ≥ len(times)`, and otherwise the element at index `rate - n`
of the times sorted descending, plus `period`; concretely, with
`rate = 3, period = 10` and recorded times `[0, 1, 2]`, the public
`estimate 1` at query time 5 returns 10. -/
theorem ts_estimate_spec (b : TSB) (times : List ℚ) (qt : ℚ) (n : ℤ)
    (h1 : 0 < n) (h2 : n ≤ (b.rate : ℤ)) :
    tsEstimate b times qt n =
      some (if (b.rate : ℤ) - n ≥ times.length then qt
        else (sortDesc times).getD ((b.rate : ℤ) - n).toNat 0 + b.period) ∧
    tsEstimatePub ⟨3, 10⟩ (tsRecord ⟨3, 10⟩ [] [0, 1, 2]) 1 5 =
      some 10 := by
  constructor
  · unfold tsEstimate
    rw [if_neg (by omega), if_neg (by omega)]
    dsimp only
    split_ifs with h
    · rfl
    · rfl
  · have h2n : (2 : ℤ).toNat = 2 := rfl
    norm_num [tsEstimatePub, tsEstimate, tsWindow, inWindow, tsRecord,
      tsTrim, listMax, sortDesc, List.insertionSort, List.orderedInsert,
      List.getD, h2n, List.getElem_cons_succ, List.getElem_cons_zero]

/-- Witness for `ts_estimate_spec` at `rate = 3, period = 10`,
`times = [0, 1, 2]`, query time 5, `n = 1`. -/
theorem ts_estimate_spec_witness :
    tsEstimate ⟨3, 10⟩ [0, 1, 2] 5 1 =
      some (if (3 : ℤ) - 1 ≥ ([0, 1, 2] : List ℚ).length then (5 : ℚ)
        else (sortDesc [0, 1, 2]).getD ((3 : ℤ) - 1).toNat 0 + 10) ∧
    tsEstimatePub ⟨3, 10⟩ (tsRecord ⟨3, 10⟩ [] [0, 1, 2]) 1 5 =
      some 10 :=
  ts_estimate_spec ⟨3, 10⟩ [0, 1, 2] 5 1 (by norm_num) (by norm_num)

/-- C2 counterexample: `record` does not preserve the window invariant:
with `rate = 3, period = 10`, recording four timestamps `0` into an
empty database leaves 4 rows in the window at query time 0, exceeding
the rate (the default trim only deletes rows older than
`max(time) - period`). -/
theorem ts_record_exceeds_rate :
    tsRecord ⟨3, 10⟩ [] [0, 0, 0, 0] = [0, 0, 0, 0] ∧
    (tsWindow ⟨3, 10⟩ (tsRecord ⟨3, 10⟩ [] [0, 0, 0, 0]) 0).length = 4 ∧
    ¬((4 : ℕ) ≤ 3) := by
  refine ⟨?_, ?_, by norm_num⟩ <;>
    norm_num [tsRecord, tsTrim, listMax, tsWindow, inWindow]

/-- C2 amended: `try_consume` (success or failure) preserves the window
invariant: when every recorded time is at most the query time and the
window holds at most `rate` rows, the call returns without error and the
window still holds at most `rate` rows (and at least 0, by the type);
`record` does not preserve it (see the counterexample). -/
theorem ts_try_consume_window_bound (b : TSB) (db : List ℚ) (qt : ℚ)
    (n leave : ℤ) (hdb : ∀ t ∈ db, t ≤ qt)
    (hcount : (tsWindow b db qt).length ≤ b.rate) (hper : 0 ≤ b.period)
    (hn : 0 < n) (hnr : n ≤ (b.rate : ℤ)) :
    ∃ db2 res, tsTryConsume b db qt n leave = some (db2, res) ∧
      (tsWindow b db2 qt).length ≤ b.rate := by
  unfold tsTryConsume
  rw [if_neg (by omega), if_neg (by omega)]
  dsimp only
  split_ifs with hc
  · refine ⟨_, _, rfl, ?_⟩
    rw [tsWindow_tsRecord b db (List.replicate n.toNat qt) qt hdb
      (by intro t ht; rw [List.eq_of_mem_replicate ht])]
    rw [tsWindow_of_all b (List.replicate n.toNat qt) qt
      (by
        intro t ht
        rw [List.eq_of_mem_replicate ht]
        exact ⟨by linarith, le_refl qt⟩)]
    rw [List.length_append, List.length_replicate]
    have hc1 := hc.1
    omega
  · exact ⟨_, _, rfl, hcount⟩

/-- Witness for `ts_try_consume_window_bound`: `rate = 3, period = 10`,
database `[0]`, query time 5, `n = 1`, `leave = 0`. -/
theorem ts_try_consume_window_bound_witness :
    ∃ db2 res, tsTryConsume ⟨3, 10⟩ [0] 5 1 0 = some (db2, res) ∧
      (tsWindow ⟨3, 10⟩ db2 5).length ≤ 3 :=
  ts_try_consume_window_bound ⟨3, 10⟩ [0] 5 1 0
    (by norm_num)
    (by norm_num [tsWindow, inWindow])
    (by norm_num) (by norm_num) (by norm_num)

end TBucket

namespace TBucket

/-- The `set` mutator takes its fill branch when tokens exceed the
target and the fill output passes the assertions. -/
theorem setMutator_fill (b : TSB) (n : ℕ)
    (fill prune : List ℚ → ℚ → ℕ → List ℚ) (times : List ℚ) (qt : ℚ)
    (h : (b.rate : ℤ) - times.length > (n : ℤ))
    (hlen : (fill times qt ((b.rate : ℤ) - times.length - (n : ℤ)).toNat).length =
      ((b.rate : ℤ) - times.length - (n : ℤ)).toNat)
    (hbound : ∀ t ∈ fill times qt ((b.rate : ℤ) - times.length - (n : ℤ)).toNat,
      t ≥ qt - b.period ∧ t ≤ qt) :
    setMutator b n fill prune times qt =
      some (times ++ fill times qt ((b.rate : ℤ) - times.length - (n : ℤ)).toNat) := by
  unfold setMutator
  dsimp only
  rw [if_pos h, if_pos ⟨hlen, hbound⟩]

/-- The `set` mutator takes its prune branch when tokens fall short of
the target and the prune output passes the assertions. -/
theorem setMutator_prune (b : TSB) (n : ℕ)
    (fill prune : List ℚ → ℚ → ℕ → List ℚ) (times : List ℚ) (qt : ℚ)
    (h : (b.rate : ℤ) - times.length < (n : ℤ))
    (hlen : (prune times qt ((n : ℤ) - ((b.rate : ℤ) - times.length)).toNat).length =
      ((n : ℤ) - ((b.rate : ℤ) - times.length)).toNat)
    (hcnt : ∀ x ∈ prune times qt ((n : ℤ) - ((b.rate : ℤ) - times.length)).toNat,
      (prune times qt ((n : ℤ) - ((b.rate : ℤ) - times.length)).toNat).count x ≤
        times.count x) :
    setMutator b n fill prune times qt =
      some (times.diff
        (prune times qt ((n : ℤ) - ((b.rate : ℤ) - times.length)).toNat)) := by
  unfold setMutator
  dsimp only
  rw [if_neg (by omega), if_pos h, if_pos ⟨hlen, hcnt⟩]

/-- The `set` mutator returns the window unchanged when the available
tokens already equal the target. -/
theorem setMutator_id (b : TSB) (n : ℕ)
    (fill prune : List ℚ → ℚ → ℕ → List ℚ) (times : List ℚ) (qt : ℚ)
    (h : (b.rate : ℤ) - times.length = (n : ℤ)) :
    setMutator b n fill prune times qt = some times := by
  unfold setMutator
  dsimp only
  rw [if_neg (by omega), if_neg (by omega)]

/-- Window lengths transfer along a multiset equality. -/
theorem tsWindow_length_of_coe_eq (b : TSB) (l : List ℚ) (qt : ℚ)
    (nw : List ℚ) (h : (tsWindow b l qt : Multiset ℚ) = (nw : Multiset ℚ)) :
    (tsWindow b l qt).length = nw.length := by
  have := congrArg Multiset.card h
  rwa [Multiset.coe_card, Multiset.coe_card] at this

/-- C6: for `n ≤ rate`, any prior contents, and any prune callback whose
output has the requested length and is a sub-multiset of the window (the
guarantees of the default `random.sample`), `set n` with the default
fill succeeds and leaves exactly `rate - n` rows in the window
`[query_time - period, query_time]`; the resulting window is exactly the
mutator's output (prior window plus `query_time` fillers, or prior
window minus the pruned rows). -/
theorem ts_set_window (b : TSB) (db : List ℚ) (n : ℕ) (qt : ℚ)
    (prune : List ℚ → ℚ → ℕ → List ℚ)
    (hn : n ≤ b.rate) (hdb : ∀ t ∈ db, t ≤ qt) (hper : 0 ≤ b.period)
    (hplen : ∀ k, k ≤ (tsWindow b db qt).length →
      (prune (tsWindow b db qt) qt k).length = k)
    (hpsub : ∀ k x, x ∈ prune (tsWindow b db qt) qt k →
      (prune (tsWindow b db qt) qt k).count x ≤ (tsWindow b db qt).count x) :
    ∃ db2 newTimes,
      tsSet b db n qt defaultFill prune =
        some (db2, ((b.rate : ℤ) - newTimes.length, (newTimes, qt))) ∧
      (tsWindow b db2 qt : Multiset ℚ) = (newTimes : Multiset ℚ) ∧
      (tsWindow b db2 qt).length = b.rate - n := by
  have hset : tsSet b db n qt defaultFill prune =
      tsMutate b db (setMutator b n defaultFill prune) qt := by
    unfold tsSet
    rw [if_neg (by omega)]
  have hwin_times := tsWindow_in_window b db qt
  rcases lt_trichotomy ((b.rate : ℤ) - (tsWindow b db qt).length) (n : ℤ)
    with hlt | heq | hgt
  · -- prune branch: too many rows recorded
    have hk : ((n : ℤ) - ((b.rate : ℤ) - (tsWindow b db qt).length)).toNat ≤
        (tsWindow b db qt).length := by omega
    have hm := setMutator_prune b n defaultFill prune (tsWindow b db qt) qt hlt
      (hplen _ hk) (fun x hx => hpsub _ x hx)
    set toPrune := prune (tsWindow b db qt) qt
      ((n : ℤ) - ((b.rate : ℤ) - (tsWindow b db qt).length)).toNat with htp
    have hwin : ∀ t ∈ (tsWindow b db qt).diff toPrune,
        t ≤ qt ∧ t ≥ qt - b.period := by
      intro t ht
      have := hwin_times t (List.diff_subset (tsWindow b db qt) toPrune ht)
      exact ⟨this.2, this.1⟩
    obtain ⟨hEq, hWinEq⟩ := tsMutate_window b db qt
      (setMutator b n defaultFill prune) ((tsWindow b db qt).diff toPrune)
      hdb hm hwin
    refine ⟨_, (tsWindow b db qt).diff toPrune, by rw [hset, hEq], hWinEq, ?_⟩
    rw [tsWindow_length_of_coe_eq b _ qt _ hWinEq]
    have hle : (toPrune : Multiset ℚ) ≤ ((tsWindow b db qt) : Multiset ℚ) := by
      rw [Multiset.le_iff_count]
      intro a
      rw [Multiset.coe_count, Multiset.coe_count]
      by_cases ha : a ∈ toPrune
      · exact hpsub _ a ha
      · rw [List.count_eq_zero_of_not_mem ha]
        exact Nat.zero_le _
    have hdlen : ((tsWindow b db qt).diff toPrune).length =
        (tsWindow b db qt).length - toPrune.length := by
      have h1 : (((tsWindow b db qt).diff toPrune : List ℚ) : Multiset ℚ) =
          ((tsWindow b db qt) : Multiset ℚ) - (toPrune : Multiset ℚ) :=
        (Multiset.coe_sub _ _).symm
      have h2 := congrArg Multiset.card h1
      rwa [Multiset.coe_card, Multiset.card_sub hle, Multiset.coe_card,
        Multiset.coe_card] at h2
    rw [hdlen, hplen _ hk]
    omega
  · -- identity branch: the window already has rate - n rows
    have hm := setMutator_id b n defaultFill prune (tsWindow b db qt) qt heq
    have hwin : ∀ t ∈ tsWindow b db qt, t ≤ qt ∧ t ≥ qt - b.period := by
      intro t ht
      exact ⟨(hwin_times t ht).2, (hwin_times t ht).1⟩
    obtain ⟨hEq, hWinEq⟩ := tsMutate_window b db qt
      (setMutator b n defaultFill prune) (tsWindow b db qt) hdb hm hwin
    refine ⟨_, tsWindow b db qt, by rw [hset, hEq], hWinEq, ?_⟩
    rw [tsWindow_length_of_coe_eq b _ qt _ hWinEq]
    omega
  · -- fill branch: defaultFill adds rows at the query time
    set k := ((b.rate : ℤ) - (tsWindow b db qt).length - (n : ℤ)).toNat with hkdef
    have hm := setMutator_fill b n defaultFill prune (tsWindow b db qt) qt hgt
      (List.length_replicate k qt)
      (by
        intro t ht
        rw [List.eq_of_mem_replicate ht]
        exact ⟨by linarith, le_refl qt⟩)
    have hwin : ∀ t ∈ tsWindow b db qt ++ List.replicate k qt,
        t ≤ qt ∧ t ≥ qt - b.period := by
      intro t ht
      rcases List.mem_append.mp ht with h | h
      · exact ⟨(hwin_times t h).2, (hwin_times t h).1⟩
      · rw [List.eq_of_mem_replicate h]
        exact ⟨le_refl qt, by linarith⟩
    obtain ⟨hEq, hWinEq⟩ := tsMutate_window b db qt
      (setMutator b n defaultFill prune)
      (tsWindow b db qt ++ List.replicate k qt) hdb hm hwin
    refine ⟨_, tsWindow b db qt ++ List.replicate k qt,
      by rw [hset, hEq], hWinEq, ?_⟩
    rw [tsWindow_length_of_coe_eq b _ qt _ hWinEq]
    rw [List.length_append, List.length_replicate]
    omega

end TBucket

namespace TBucket

/-- A deterministic prune callback used to instantiate the theorems (the
library default, `random.sample`, is nondeterministic; the spec notes
that reproducible tests must inject a deterministic one). Taking a
prefix always returns a sub-multiset of the requested length. -/
def takePrune (times : List ℚ) (qt : ℚ) (k : ℕ) : List ℚ :=
  times.take k

/-- Witness for `ts_set_window`: `rate = 3, period = 10`, database
`[0, 1]` (the result of `record(0, 1)`), `set 0` at query time 5, which
concretely leaves the window `[0, 1, 5]` with 0 tokens available. -/
theorem ts_set_window_witness :
    (∃ db2 newTimes,
      tsSet ⟨3, 10⟩ [0, 1] 0 5 defaultFill takePrune =
        some (db2, ((3 : ℤ) - newTimes.length, (newTimes, 5))) ∧
      (tsWindow ⟨3, 10⟩ db2 5 : Multiset ℚ) = (newTimes : Multiset ℚ) ∧
      (tsWindow ⟨3, 10⟩ db2 5).length = 3 - 0) ∧
    tsRecord ⟨3, 10⟩ [] [0, 1] = [0, 1] ∧
    tsSet ⟨3, 10⟩ [0, 1] 0 5 defaultFill takePrune =
      some ([0, 1, 5], (0, ([0, 1, 5], 5))) := by
  refine ⟨ts_set_window ⟨3, 10⟩ [0, 1] 0 5 takePrune (by norm_num)
    (by norm_num) (by norm_num)
    (by
      have hw : tsWindow ⟨3, 10⟩ [0, 1] 5 = [0, 1] := by
        norm_num [tsWindow, inWindow]
      intro k hk
      rw [hw] at hk ⊢
      rw [takePrune, List.length_take]
      simp at hk ⊢
      omega)
    (by
      intro k x hx
      exact (List.take_sublist k _).count_le x), ?_, ?_⟩
  · norm_num [tsRecord, tsTrim, listMax, max_def]
  · norm_num [tsSet, tsMutate, setMutator, defaultFill, takePrune,
      tsWindow, inWindow, tsRecord, tsTrim, listMax, max_def,
      List.diff_cons, List.diff_nil, List.erase_cons, beq_iff_eq]

end TBucket
